import Mathlib

/-!
Verification of the stablecoin-regulation map application.

The definitions below are a shallow embedding of the application's logic
(the `App.jsx` variant carrying `STATUS_OVERRIDES_BY_STATE`): JavaScript
objects used as key/value tables become association lists looked up with
`List.lookup`, JavaScript strings become Lean `String`/`List Char`,
absent (`undefined`) values become `Option`, and JavaScript truthiness of
strings (`undefined` and `""` are falsy) is made explicit.
-/

/-- Truthiness of a possibly-absent JS string: `undefined` and `""` are falsy. -/
def jsTruthyStr : Option String → Bool
  | none => false
  | some s => decide (s ≠ "")

/-- `a || b` on a possibly-absent JS string `a` with a string default `b`. -/
def jsOrStr (a : Option String) (b : String) : String :=
  match a with
  | some s => if s = "" then b else s
  | none => b

/-- `a || b` where both operands are possibly-absent JS strings. -/
def jsOrOpt (a : Option String) (b : Option String) : Option String :=
  match a with
  | some s => if s = "" then b else some s
  | none => b

/-- Static per-status display metadata (one record per canonical status). -/
structure StatusMeta where
  label : String
  description : String
  tooltipClass : String
  tooltipPositionClass : String
  color : String
  chipBg : String
  chipBorder : String
  chipText : String
deriving DecidableEq

/-- The `STATUS_META` table: the four canonical statuses with their display data. -/
def STATUS_META : List (String × StatusMeta) :=
  [("clear_friendly",
    { label := "Clear + Friendly"
      description := "clear rules, builder-friendly"
      tooltipClass := "max-w-max whitespace-nowrap"
      tooltipPositionClass := "left-0 translate-x-0"
      color := "#15803d"
      chipBg := "#14532d"
      chipBorder := "#22c55e"
      chipText := "#bbf7d0" }),
   ("clear_restrictive",
    { label := "Clear + Restrictive"
      description := "clear rules, higher compliance bar"
      tooltipClass := "max-w-max whitespace-nowrap"
      tooltipPositionClass := "left-1/2 -translate-x-1/2"
      color := "#1e3a8a"
      chipBg := "#1e3a8a"
      chipBorder := "#60a5fa"
      chipText := "#bfdbfe" }),
   ("pending",
    { label := "Pending"
      description := "framework is in motion: active bills, pilots, or implementation steps"
      tooltipClass := "w-72 whitespace-normal leading-snug"
      tooltipPositionClass := "left-1/2 -translate-x-1/2"
      color := "#a16207"
      chipBg := "#78350f"
      chipBorder := "#f59e0b"
      chipText := "#fde68a" }),
   ("federal_default",
    { label := "Federal Default"
      description := "no state-specific stablecoin framework; federal baseline plus money transmission rules"
      tooltipClass := "w-72 whitespace-normal leading-snug"
      tooltipPositionClass := "right-0 left-auto translate-x-0"
      color := "#4b5563"
      chipBg := "#1f2937"
      chipBorder := "#9ca3af"
      chipText := "#e5e7eb" })]

/-- The `STATUS_OVERRIDES_BY_STATE` table: per-state forced statuses. -/
def STATUS_OVERRIDES_BY_STATE : List (String × String) :=
  [("FL", "pending"), ("HI", "pending"), ("AZ", "pending")]

/-- The `legacyMap` alias table inside `normalizeStatus`. -/
def legacyMap : List (String × String) :=
  [("friendly", "clear_friendly"),
   ("restrictive", "clear_restrictive"),
   ("none", "federal_default"),
   ("unclear", "pending")]

/-- The part of `normalizeStatus` after the override check:
`if (!input) return "federal_default"; if (Object.hasOwn(STATUS_META, input)) return input;
return legacyMap[input] || "federal_default";` -/
def normalizeStatusBase (input : Option String) : String :=
  match input with
  | none => "federal_default"
  | some s =>
    if s = "" then "federal_default"
    else if (List.lookup s STATUS_META).isSome then s
    else jsOrStr (List.lookup s legacyMap) "federal_default"

/-- `normalizeStatus(input, stateAbbr)`: the leading
`if (stateAbbr && STATUS_OVERRIDES_BY_STATE[stateAbbr]) return STATUS_OVERRIDES_BY_STATE[stateAbbr];`
(truthiness of both the abbreviation and the override value made explicit),
then the base normalization. -/
def normalizeStatus (input : Option String) (stateAbbr : Option String) : String :=
  match stateAbbr with
  | none => normalizeStatusBase input
  | some ab =>
    if ab = "" then normalizeStatusBase input
    else
      match List.lookup ab STATUS_OVERRIDES_BY_STATE with
      | none => normalizeStatusBase input
      | some ov => if ov = "" then normalizeStatusBase input else ov

lemma overrides_inv {ab st : String}
    (h : List.lookup ab STATUS_OVERRIDES_BY_STATE = some st) :
    (ab = "FL" ∨ ab = "HI" ∨ ab = "AZ") ∧ st = "pending" := by
  simp only [STATUS_OVERRIDES_BY_STATE, List.lookup] at h
  split at h
  · next heq => exact ⟨Or.inl (by simpa using heq), by simpa using h.symm⟩
  · split at h
    · next heq => exact ⟨Or.inr (Or.inl (by simpa using heq)), by simpa using h.symm⟩
    · split at h
      · next heq => exact ⟨Or.inr (Or.inr (by simpa using heq)), by simpa using h.symm⟩
      · exact absurd h (by simp)

/-- C1: for every state abbreviation present in the override table and every
raw status value (canonical, legacy, absent or unknown), `normalizeStatus`
returns the override table's status for that abbreviation, ignoring the raw
status entirely. -/
theorem normalizeStatus_override_wins (input : Option String) (ab st : String)
    (h : List.lookup ab STATUS_OVERRIDES_BY_STATE = some st) :
    normalizeStatus input (some ab) = st := by
  obtain ⟨hab, hst⟩ := overrides_inv h
  subst hst
  rcases hab with hab | hab | hab <;> subst hab <;>
    simp [normalizeStatus, h]

/-- Witness for C1 at a concrete input: the `FL` override beats the stored
canonical status `clear_friendly`. -/
theorem normalizeStatus_override_wins_witness :
    normalizeStatus (some "clear_friendly") (some "FL") = "pending" :=
  normalizeStatus_override_wins (some "clear_friendly") "FL" "pending" (by decide)

lemma normalizeStatus_eq_base {stateAbbr : Option String}
    (h : stateAbbr.bind (fun ab => List.lookup ab STATUS_OVERRIDES_BY_STATE) = none)
    (input : Option String) :
    normalizeStatus input stateAbbr = normalizeStatusBase input := by
  match stateAbbr with
  | none => rfl
  | some ab =>
    simp only [Option.bind] at h
    by_cases hab : ab = ""
    · simp [normalizeStatus, hab]
    · simp [normalizeStatus, hab, h]

/-- C2: for every state abbreviation (present or absent) with no entry in the
override table, `normalizeStatus` returns `federal_default` on absent/empty
input, maps the four legacy aliases as documented, and returns
`federal_default` on any other string that is neither canonical nor legacy. -/
theorem normalizeStatus_no_override_cases (stateAbbr : Option String)
    (h : stateAbbr.bind (fun ab => List.lookup ab STATUS_OVERRIDES_BY_STATE) = none) :
    normalizeStatus none stateAbbr = "federal_default" ∧
    normalizeStatus (some "") stateAbbr = "federal_default" ∧
    normalizeStatus (some "friendly") stateAbbr = "clear_friendly" ∧
    normalizeStatus (some "restrictive") stateAbbr = "clear_restrictive" ∧
    normalizeStatus (some "none") stateAbbr = "federal_default" ∧
    normalizeStatus (some "unclear") stateAbbr = "pending" ∧
    ∀ s : String, List.lookup s STATUS_META = none → List.lookup s legacyMap = none →
      normalizeStatus (some s) stateAbbr = "federal_default" := by
  refine ⟨?_, ?_, ?_, ?_, ?_, ?_, ?_⟩
  · rw [normalizeStatus_eq_base h]; decide
  · rw [normalizeStatus_eq_base h]; decide
  · rw [normalizeStatus_eq_base h]; decide
  · rw [normalizeStatus_eq_base h]; decide
  · rw [normalizeStatus_eq_base h]; decide
  · rw [normalizeStatus_eq_base h]; decide
  · intro s h1 h2
    rw [normalizeStatus_eq_base h]
    by_cases hs : s = ""
    · simp [normalizeStatusBase, hs]
    · simp [normalizeStatusBase, hs, h1, h2, jsOrStr]

/-- Witness for C2 at a concrete abbreviation absent from the override table:
`NY` with legacy input `"unclear"` and with the unknown input `"bogus"`. -/
theorem normalizeStatus_no_override_cases_witness :
    normalizeStatus (some "unclear") (some "NY") = "pending" ∧
    normalizeStatus (some "bogus") (some "NY") = "federal_default" :=
  ⟨(normalizeStatus_no_override_cases (some "NY") (by decide)).2.2.2.2.2.1,
   (normalizeStatus_no_override_cases (some "NY") (by decide)).2.2.2.2.2.2
     "bogus" (by decide) (by decide)⟩

/-- C3 fails as stated: for the abbreviation `FL` (which sits in the override
table) normalization is not the identity on the canonical status
`clear_friendly` — the override forces `pending`. -/
theorem normalizeStatus_canonical_identity_cex :
    normalizeStatus (some "clear_friendly") (some "FL") = "pending" ∧
    normalizeStatus (some "clear_friendly") (some "FL") ≠ "clear_friendly" := by
  constructor <;> decide

/-- C3 (amended): for every raw status string in the canonical set and every
state abbreviation (present or absent) with no entry in the override table,
`normalizeStatus` returns the string unchanged. -/
theorem normalizeStatus_canonical_identity_amended (s : String)
    (hs : (List.lookup s STATUS_META).isSome) (stateAbbr : Option String)
    (h : stateAbbr.bind (fun ab => List.lookup ab STATUS_OVERRIDES_BY_STATE) = none) :
    normalizeStatus (some s) stateAbbr = s := by
  rw [normalizeStatus_eq_base h]
  by_cases hemp : s = ""
  · subst hemp; simp [STATUS_META, List.lookup] at hs
  · simp [normalizeStatusBase, hemp, hs]

/-- Witness for amended C3: `clear_restrictive` is fixed under normalization
for the abbreviation `NY`, which carries no override. -/
theorem normalizeStatus_canonical_identity_amended_witness :
    normalizeStatus (some "clear_restrictive") (some "NY") = "clear_restrictive" :=
  normalizeStatus_canonical_identity_amended "clear_restrictive" (by decide)
    (some "NY") (by decide)

/-!
The color deriver `shiftHexColor`. JavaScript semantics made explicit:
`hex.replace("#", "")` removes only the first occurrence of `#`;
`Number.parseInt(s, 16)` skips leading whitespace, accepts an optional
sign and an optional `0x`/`0X`, and parses the longest prefix of hex
digits (returning NaN, modelled as `none`, only when there are no digits);
`>>` and `&` operate on 32-bit two's-complement integers; the result is
rendered by `Number.prototype.toString(16)` (lowercase hex digits,
modelled by `natToHex`) and `String.prototype.padStart(6, "0")`.
-/

def hexDigitVal (c : Char) : Option Nat :=
  let n := c.toNat
  if 48 ≤ n ∧ n ≤ 57 then some (n - 48)
  else if 97 ≤ n ∧ n ≤ 102 then some (n - 87)
  else if 65 ≤ n ∧ n ≤ 70 then some (n - 55)
  else none

def isHexDigitChar (c : Char) : Bool := (hexDigitVal c).isSome

def isJsWhitespace (c : Char) : Bool :=
  decide (c.toNat = 9 ∨ c.toNat = 10 ∨ c.toNat = 11 ∨ c.toNat = 12 ∨ c.toNat = 13 ∨
    c.toNat = 32 ∨ c.toNat = 160 ∨ c.toNat = 0x2028 ∨ c.toNat = 0x2029 ∨ c.toNat = 0xFEFF)

lemma isHexDigitChar_iff {c : Char} : isHexDigitChar c = true ↔
    (48 ≤ c.toNat ∧ c.toNat ≤ 57) ∨ (97 ≤ c.toNat ∧ c.toNat ≤ 102) ∨
    (65 ≤ c.toNat ∧ c.toNat ≤ 70) := by
  simp only [isHexDigitChar, hexDigitVal]
  split_ifs with h1 h2 h3 <;> simp_all

lemma hex_not_ws {c : Char} (h : isHexDigitChar c = true) : isJsWhitespace c = false := by
  rw [isHexDigitChar_iff] at h
  simp only [isJsWhitespace, decide_eq_false_iff_not]
  omega

lemma hexDigitVal_le {c : Char} {v : Nat} (h : hexDigitVal c = some v) : v ≤ 15 := by
  simp only [hexDigitVal] at h
  split_ifs at h <;> simp_all <;> omega

def removeFirstHash : List Char → List Char
  | [] => []
  | c :: cs => if c = '#' then cs else c :: removeFirstHash cs

def stripHex0x (cs : List Char) : List Char :=
  match cs with
  | c1 :: c2 :: rest => if c1 = '0' ∧ (c2 = 'x' ∨ c2 = 'X') then rest else cs
  | _ => cs

def hexValList (cs : List Char) : Nat :=
  cs.foldl (fun acc c => acc * 16 + (hexDigitVal c).getD 0) 0

def takeHexValue (cs : List Char) : Option Nat :=
  let ds := cs.takeWhile isHexDigitChar
  if ds = [] then none else some (hexValList ds)

def jsParseIntHex (cs : List Char) : Option Int :=
  match cs.dropWhile isJsWhitespace with
  | [] => none
  | c :: rest =>
    if c = '-' then (takeHexValue (stripHex0x rest)).map (fun n => -(n : Int))
    else if c = '+' then (takeHexValue (stripHex0x rest)).map (fun n => (n : Int))
    else (takeHexValue (stripHex0x (c :: rest))).map (fun n => (n : Int))

lemma removeFirstHash_of_not_mem : ∀ {cs : List Char}, '#' ∉ cs → removeFirstHash cs = cs
  | [], _ => rfl
  | c :: cs, h => by
    have hc : ¬ (c = '#') := fun hc => h (by simp [hc])
    have hcs : '#' ∉ cs := fun hm => h (List.mem_cons_of_mem c hm)
    simp [removeFirstHash, hc, removeFirstHash_of_not_mem hcs]

lemma hash_not_hex {cs : List Char} (h : cs.all isHexDigitChar = true) : '#' ∉ cs := by
  intro hm
  have h2 := (List.all_eq_true.mp h) _ hm
  exact absurd h2 (by decide)

lemma stripHex0x_all_hex {cs : List Char} (h : cs.all isHexDigitChar = true) :
    stripHex0x cs = cs := by
  match cs with
  | [] => rfl
  | [c] => rfl
  | c1 :: c2 :: rest =>
    simp only [stripHex0x, ite_eq_right_iff]
    rintro ⟨h1, h2 | h2⟩ <;> subst h2 <;>
      (simp only [List.all_cons, Bool.and_eq_true] at h; exact absurd h.2.1 (by decide))

lemma takeWhile_all_eq {cs : List Char} (h : cs.all isHexDigitChar = true) :
    cs.takeWhile isHexDigitChar = cs := by
  induction cs with
  | nil => rfl
  | cons c cs ih =>
    simp only [List.all_cons, Bool.and_eq_true] at h
    simp [List.takeWhile_cons, h.1, ih h.2]

lemma jsParseIntHex_all_hex {ds : List Char} (hne : ds ≠ [])
    (hall : ds.all isHexDigitChar = true) :
    jsParseIntHex ds = some ((hexValList ds : Nat) : Int) := by
  obtain ⟨c, rest, rfl⟩ := List.exists_cons_of_ne_nil hne
  have hc : isHexDigitChar c = true := by
    simp only [List.all_cons, Bool.and_eq_true] at hall; exact hall.1
  have hminus : ¬ (c = '-') := by
    intro h; subst h; exact absurd hc (by decide)
  have hplus : ¬ (c = '+') := by
    intro h; subst h; exact absurd hc (by decide)
  have hdrop : (c :: rest).dropWhile isJsWhitespace = c :: rest := by
    simp [List.dropWhile_cons, hex_not_ws hc]
  simp only [jsParseIntHex, hdrop, hminus, hplus, if_false,
    stripHex0x_all_hex hall, takeHexValue, takeWhile_all_eq hall]
  simp

def toUint32 (n : Int) : Nat := (n.emod (2 ^ 32)).toNat

def toInt32 (n : Int) : Int :=
  let m := n.emod (2 ^ 32)
  if m < 2 ^ 31 then m else m - 2 ^ 32

def jsShr (n : Int) (k : Nat) : Int := Int.fdiv (toInt32 n) (2 ^ k)

def jsAnd (a b : Int) : Int := toInt32 ((toUint32 a &&& toUint32 b : Nat) : Int)

lemma toInt32_coe_small {n : Nat} (h : n < 2 ^ 31) : toInt32 (n : Int) = (n : Int) := by
  have h1 : ((n : Int)).emod (2 ^ 32) = (n : Int) :=
    Int.emod_eq_of_lt (by omega) (by omega)
  simp only [toInt32, h1]
  rw [if_pos (by omega)]

lemma jsShr_coe_small {n : Nat} (h : n < 2 ^ 31) (k : Nat) :
    jsShr (n : Int) k = ((n / 2 ^ k : Nat) : Int) := by
  rw [jsShr, toInt32_coe_small h, Int.fdiv_eq_ediv _ (by positivity)]
  rw [Int.ofNat_ediv]
  norm_num

lemma toUint32_coe_small {n : Nat} (h : n < 2 ^ 32) : toUint32 (n : Int) = n := by
  have h1 : ((n : Int)).emod (2 ^ 32) = (n : Int) :=
    Int.emod_eq_of_lt (by omega) (by omega)
  simp only [toUint32, h1]
  exact Int.toNat_natCast n

lemma jsAnd_255_coe {n : Nat} (h : n < 2 ^ 32) :
    jsAnd (n : Int) 255 = ((n % 256 : Nat) : Int) := by
  have h255 : toUint32 255 = 255 := by decide
  rw [jsAnd, toUint32_coe_small h, h255]
  rw [show (255 : Nat) = 2 ^ 8 - 1 from rfl, Nat.and_pow_two_sub_one_eq_mod]
  exact toInt32_coe_small (by omega)

def hexDigitChar : Nat → Char
  | 0 => '0' | 1 => '1' | 2 => '2' | 3 => '3' | 4 => '4'
  | 5 => '5' | 6 => '6' | 7 => '7' | 8 => '8' | 9 => '9'
  | 10 => 'a' | 11 => 'b' | 12 => 'c' | 13 => 'd' | 14 => 'e'
  | _ => 'f'

def natToHexAux : Nat → Nat → List Char
  | 0, _ => []
  | fuel + 1, n =>
    if n < 16 then [hexDigitChar n]
    else natToHexAux fuel (n / 16) ++ [hexDigitChar (n % 16)]

def natToHex (n : Nat) : List Char := natToHexAux (n + 1) n

def padStartZeros (cs : List Char) (w : Nat) : List Char :=
  List.replicate (w - cs.length) '0' ++ cs

def isLowerHexDigit (c : Char) : Bool :=
  decide ((48 ≤ c.toNat ∧ c.toNat ≤ 57) ∨ (97 ≤ c.toNat ∧ c.toNat ≤ 102))

lemma hexDigitChar_lower (k : Nat) : isLowerHexDigit (hexDigitChar k) = true := by
  unfold hexDigitChar
  split <;> decide

lemma natToHexAux_ne_nil : ∀ (fuel n : Nat), n < fuel → natToHexAux fuel n ≠ []
  | 0, n, h => by omega
  | fuel + 1, n, _ => by
    unfold natToHexAux
    split <;> simp

lemma natToHexAux_all_lower : ∀ (fuel n : Nat), n < fuel →
    (natToHexAux fuel n).all isLowerHexDigit = true
  | 0, n, h => by omega
  | fuel + 1, n, h => by
    unfold natToHexAux
    split
    · simp [hexDigitChar_lower]
    · next hge =>
      have hlt : n / 16 < fuel := by omega
      simp [List.all_append, natToHexAux_all_lower fuel (n / 16) hlt, hexDigitChar_lower]

lemma natToHexAux_length_le : ∀ (fuel n k : Nat), n < fuel → n < 16 ^ k → 1 ≤ k →
    (natToHexAux fuel n).length ≤ k
  | 0, n, _, h, _, _ => by omega
  | fuel + 1, n, k, hf, hn, hk => by
    unfold natToHexAux
    split
    · simpa using hk
    · next hge =>
      push_neg at hge
      match k, hk with
      | 1, _ => omega
      | k + 2, _ =>
        have hdiv : n / 16 < 16 ^ (k + 1) := by
          rw [Nat.div_lt_iff_lt_mul (by norm_num)]
          calc n < 16 ^ (k + 2) := hn
          _ = 16 ^ (k + 1) * 16 := by ring
        have := natToHexAux_length_le fuel (n / 16) (k + 1) (by omega) hdiv (by omega)
        simp only [List.length_append, List.length_cons, List.length_nil]
        omega

lemma hexValList_aux_lt : ∀ (ds : List Char) (acc : Nat),
    ds.foldl (fun acc c => acc * 16 + (hexDigitVal c).getD 0) acc < (acc + 1) * 16 ^ ds.length
  | [], acc => by simp
  | c :: ds, acc => by
    simp only [List.foldl_cons, List.length_cons]
    have hv : (hexDigitVal c).getD 0 ≤ 15 := by
      match hval : hexDigitVal c with
      | none => simp
      | some v => simpa using hexDigitVal_le hval
    calc ds.foldl (fun acc c => acc * 16 + (hexDigitVal c).getD 0)
            (acc * 16 + (hexDigitVal c).getD 0)
        < (acc * 16 + (hexDigitVal c).getD 0 + 1) * 16 ^ ds.length := hexValList_aux_lt ds _
      _ ≤ ((acc + 1) * 16) * 16 ^ ds.length := by
          apply Nat.mul_le_mul_right
          omega
      _ = (acc + 1) * 16 ^ (ds.length + 1) := by ring

lemma hexValList_lt {ds : List Char} : hexValList ds < 16 ^ ds.length := by
  have := hexValList_aux_lt ds 0
  simpa [hexValList] using this

lemma compose_rgb {r g b : Nat} (hg : g ≤ 255) (hb : b ≤ 255) :
    ((r <<< 16) ||| (g <<< 8)) ||| b = r * 65536 + g * 256 + b := by
  rw [Nat.shiftLeft_eq, Nat.shiftLeft_eq]
  rw [show r * 2 ^ 16 = 2 ^ 16 * r by ring]
  rw [← Nat.mul_add_lt_is_or (by omega : g * 2 ^ 8 < 2 ^ 16) r]
  rw [show 2 ^ 16 * r + g * 2 ^ 8 = 2 ^ 8 * (2 ^ 8 * r + g) by ring]
  rw [← Nat.mul_add_lt_is_or (by omega : b < 2 ^ 8) (2 ^ 8 * r + g)]
  ring

def shiftHexColor (hex : String) (amount : Int) : String :=
  let normalized := removeFirstHash hex.data
  if normalized.length ≠ 6 then hex
  else
    match jsParseIntHex normalized with
    | none => hex
    | some num =>
      let r := min 255 (max 0 (jsShr num 16 + amount))
      let g := min 255 (max 0 (jsAnd (jsShr num 8) 255 + amount))
      let b := min 255 (max 0 (jsAnd num 255 + amount))
      String.mk ('#' ::
        padStartZeros (natToHex (((r.toNat <<< 16) ||| (g.toNat <<< 8)) ||| b.toNat)) 6)

def clampByte (v : Int) : Nat := (min 255 (max 0 v)).toNat

def hexColorString (r g b : Nat) : String :=
  String.mk ('#' :: padStartZeros (natToHex (r * 65536 + g * 256 + b)) 6)

lemma shiftHexColor_parsed {hex : String} {amount : Int} {ds : List Char}
    (hrm : removeFirstHash hex.data = ds) (hlen : ds.length = 6)
    (hall : ds.all isHexDigitChar = true) :
    shiftHexColor hex amount =
      hexColorString
        (clampByte (((hexValList ds / 65536 : Nat) : Int) + amount))
        (clampByte (((hexValList ds / 256 % 256 : Nat) : Int) + amount))
        (clampByte (((hexValList ds % 256 : Nat) : Int) + amount)) := by
  have hne : ds ≠ [] := by intro h; rw [h] at hlen; simp at hlen
  have hparse := jsParseIntHex_all_hex hne hall
  have hlt : hexValList ds < 2 ^ 24 := by
    have := @hexValList_lt ds
    rw [hlen] at this
    omega
  rw [shiftHexColor, hrm]
  simp only [hlen, if_neg (by omega : ¬ (6 : Nat) ≠ 6), hparse]
  rw [jsShr_coe_small (by omega) 16, jsShr_coe_small (by omega) 8]
  rw [show (2 : Nat) ^ 16 = 65536 from by norm_num,
    show (2 : Nat) ^ 8 = 256 from by norm_num]
  rw [jsAnd_255_coe (by omega : hexValList ds / 256 < 2 ^ 32),
    jsAnd_255_coe (by omega : hexValList ds < 2 ^ 32)]
  rw [hexColorString, clampByte, clampByte, clampByte]
  congr 2
  rw [compose_rgb (by omega) (by omega)]

lemma shiftHexColor_shape {hex : String} {amount : Int}
    (hlen : (removeFirstHash hex.data).length = 6)
    (hall : (removeFirstHash hex.data).all isHexDigitChar = true) :
    ∃ ds : List Char, shiftHexColor hex amount = String.mk ('#' :: ds) ∧
      ds.length = 6 ∧ ds.all isLowerHexDigit = true := by
  rw [shiftHexColor_parsed rfl hlen hall]
  set n := hexValList (removeFirstHash hex.data) with hn
  set r := clampByte (((n / 65536 : Nat) : Int) + amount) with hr
  set g := clampByte (((n / 256 % 256 : Nat) : Int) + amount) with hg
  set b := clampByte (((n % 256 : Nat) : Int) + amount) with hb
  have hrb : r ≤ 255 := by rw [hr, clampByte]; omega
  have hgb : g ≤ 255 := by rw [hg, clampByte]; omega
  have hbb : b ≤ 255 := by rw [hb, clampByte]; omega
  refine ⟨padStartZeros (natToHex (r * 65536 + g * 256 + b)) 6, rfl, ?_, ?_⟩
  · have h1 : (natToHex (r * 65536 + g * 256 + b)).length ≤ 6 := by
      apply natToHexAux_length_le _ _ _ (by omega) (by norm_num; omega) (by omega)
    simp only [padStartZeros, List.length_append, List.length_replicate]
    omega
  · simp only [padStartZeros, List.all_append, Bool.and_eq_true]
    constructor
    · apply List.all_eq_true.mpr
      intro c hc
      rw [List.eq_of_mem_replicate hc]
      decide
    · exact natToHexAux_all_lower _ _ (by omega)

def specWellFormedHexColor (s : String) : Bool :=
  match s.data with
  | '#' :: rest => decide (rest.length = 6) && rest.all isHexDigitChar
  | l => decide (l.length = 6) && l.all isHexDigitChar

theorem shiftHexColor_failsoft_cex :
    specWellFormedHexColor "12zz34" = false ∧
    shiftHexColor "12zz34" 0 = "#000012" ∧ "#000012" ≠ "12zz34" := by
  refine ⟨by decide, by decide, by decide⟩

theorem shiftHexColor_failsoft_amended (hex : String) (amount : Int)
    (h : (removeFirstHash hex.data).length ≠ 6 ∨
      jsParseIntHex (removeFirstHash hex.data) = none) :
    shiftHexColor hex amount = hex := by
  rw [shiftHexColor]
  rcases h with h | h
  · simp [h]
  · by_cases hlen : (removeFirstHash hex.data).length ≠ 6
    · simp [hlen]
    · simp [hlen, h]

theorem shiftHexColor_failsoft_amended_witness :
    shiftHexColor "abc" 5 = "abc" :=
  shiftHexColor_failsoft_amended "abc" 5 (Or.inl (by decide))

theorem shiftHexColor_wellformed_rgb :
    (∀ (hex : String) (amount : Int) (pre ds : List Char),
      hex.data = pre ++ ds → pre = [] ∨ pre = ['#'] →
      ds.length = 6 → ds.all isHexDigitChar = true →
      shiftHexColor hex amount =
        hexColorString
          (clampByte (((hexValList ds / 65536 : Nat) : Int) + amount))
          (clampByte (((hexValList ds / 256 % 256 : Nat) : Int) + amount))
          (clampByte (((hexValList ds % 256 : Nat) : Int) + amount))) ∧
    shiftHexColor "#000000" 26 = "#1a1a1a" ∧
    shiftHexColor "#ffffff" 26 = "#ffffff" := by
  refine ⟨?_, by decide, by decide⟩
  intro hex amount pre ds hdata hpre hlen hall
  have hrm : removeFirstHash hex.data = ds := by
    rcases hpre with rfl | rfl
    · rw [hdata]
      simp only [List.nil_append]
      exact removeFirstHash_of_not_mem (hash_not_hex hall)
    · rw [hdata]
      simp [removeFirstHash]
  exact shiftHexColor_parsed hrm hlen hall

theorem shiftHexColor_wellformed_rgb_witness :
    shiftHexColor "#102030" 5 =
      hexColorString
        (clampByte (((hexValList ['1', '0', '2', '0', '3', '0'] / 65536 : Nat) : Int) + 5))
        (clampByte (((hexValList ['1', '0', '2', '0', '3', '0'] / 256 % 256 : Nat) : Int) + 5))
        (clampByte (((hexValList ['1', '0', '2', '0', '3', '0'] % 256 : Nat) : Int) + 5)) :=
  shiftHexColor_wellformed_rgb.1 "#102030" 5 ['#'] ['1', '0', '2', '0', '3', '0']
    (by decide) (Or.inr rfl) (by decide) (by decide)

theorem shiftHexColor_output_normalized :
    (∀ (hex : String) (amount : Int),
      (removeFirstHash hex.data).length = 6 →
      (removeFirstHash hex.data).all isHexDigitChar = true →
      ∃ ds : List Char, shiftHexColor hex amount = String.mk ('#' :: ds) ∧
        ds.length = 6 ∧ ds.all isLowerHexDigit = true) ∧
    shiftHexColor "15803D" 0 = "#15803d" := by
  refine ⟨?_, by decide⟩
  intro hex amount hlen hall
  exact shiftHexColor_shape hlen hall

theorem shiftHexColor_output_normalized_witness :
    ∃ ds : List Char, shiftHexColor "2F00aB" (-300) = String.mk ('#' :: ds) ∧
      ds.length = 6 ∧ ds.all isLowerHexDigit = true :=
  shiftHexColor_output_normalized.1 "2F00aB" (-300) (by decide) (by decide)

/-!
The date formatter, the source-label formatter, and the region resolver.

`formatDate` branches on JS truthiness, builds `new Date(iso + "T00:00:00")`
and renders it with `Intl.DateTimeFormat("en-US", {year: "numeric", month:
"long", day: "numeric"})`. Date construction and Intl rendering are host
(ECMAScript/ECMA-402) library behavior, not code of this repository.
Modelled from the spec: "construct a date at local midnight for the given
calendar day; if the resulting date is invalid, return the raw input string
unchanged; otherwise return a long-form rendering (full month name, day,
four-digit year) in a fixed locale" — `parseCalendarDate` accepts exactly
the valid `YYYY-MM-DD` Gregorian calendar days (the ECMAScript date-time
string format that `"T00:00:00"` completes), and `renderLongDate` is the
en-US long form. Both functions are total, so `formatDate` never raises.

`getSourceLabel` calls `new URL(source)` — the WHATWG URL parser, again a
host library. Modelled from the spec: "attempts to parse as a URL; on
success returns hostname + pathname" — `parseURL` requires `scheme://`
with an alphabetic scheme and a nonempty host, splits the authority from
the path at the first `/`, `?` or `#`, strips userinfo and port from the
hostname, and defaults the pathname to `/`. Totality gives never-raises.

The region resolver is the render-loop expression
`FIPS_TO_ABBR[String(geo.id).padStart(2, "0")] || STATE_NAME_TO_ABBR[geo.properties.name]`.
The two tables live in `src/data/stateMappings.js`, which is not part of
the sources here, so the resolver is parameterized over them.
-/

def MONTH_NAMES : List String :=
  ["January", "February", "March", "April", "May", "June", "July",
   "August", "September", "October", "November", "December"]

def isLeapYear (y : Nat) : Bool :=
  (decide (y % 4 = 0) && decide (y % 100 ≠ 0)) || decide (y % 400 = 0)

def daysInMonth (y m : Nat) : Nat :=
  if m = 2 then (if isLeapYear y then 29 else 28)
  else if m = 4 ∨ m = 6 ∨ m = 9 ∨ m = 11 then 30
  else 31

def isDigitChar (c : Char) : Bool := decide (48 ≤ c.toNat ∧ c.toNat ≤ 57)

def digitVal (c : Char) : Nat := c.toNat - 48

def parseCalendarDate (s : String) : Option (Nat × Nat × Nat) :=
  match s.data with
  | [y1, y2, y3, y4, '-', m1, m2, '-', d1, d2] =>
    if [y1, y2, y3, y4, m1, m2, d1, d2].all isDigitChar then
      let y := ((digitVal y1 * 10 + digitVal y2) * 10 + digitVal y3) * 10 + digitVal y4
      let m := digitVal m1 * 10 + digitVal m2
      let d := digitVal d1 * 10 + digitVal d2
      if 1 ≤ m ∧ m ≤ 12 ∧ 1 ≤ d ∧ d ≤ daysInMonth y m then some (y, m, d) else none
    else none
  | _ => none

def renderLongDate (y m d : Nat) : String :=
  MONTH_NAMES.getD (m - 1) "" ++ " " ++ toString d ++ ", " ++ toString y

def formatDate (iso : Option String) : String :=
  match iso with
  | none => "N/A"
  | some s =>
    if s = "" then "N/A"
    else
      match parseCalendarDate s with
      | none => s
      | some (y, m, d) => renderLongDate y m d

theorem formatDate_contract :
    formatDate none = "N/A" ∧
    formatDate (some "") = "N/A" ∧
    (∀ s : String, s ≠ "" → parseCalendarDate s = none → formatDate (some s) = s) ∧
    (∀ (s : String) (y m d : Nat), parseCalendarDate s = some (y, m, d) →
      formatDate (some s) = renderLongDate y m d) ∧
    formatDate (some "2026-02-16") = "February 16, 2026" ∧
    formatDate (some "not-a-date") = "not-a-date" := by
  refine ⟨rfl, by decide, ?_, ?_, by decide, by decide⟩
  · intro s hs hp
    simp [formatDate, hs, hp]
  · intro s y m d hp
    have hs : s ≠ "" := by
      intro h
      rw [h, show parseCalendarDate "" = none from by decide] at hp
      exact Option.noConfusion hp
    simp [formatDate, hs, hp]

theorem formatDate_contract_witness :
    formatDate (some "2026-99-99") = "2026-99-99" ∧
    formatDate (some "2026-02-16") = renderLongDate 2026 2 16 :=
  ⟨formatDate_contract.2.2.1 "2026-99-99" (by decide) (by decide),
   formatDate_contract.2.2.2.1 "2026-02-16" 2026 2 16 (by decide)⟩

structure URLParts where
  hostname : String
  pathname : String
deriving DecidableEq

def splitSchemeSep : List Char → Option (List Char × List Char)
  | [] => none
  | ':' :: '/' :: '/' :: rest => some ([], rest)
  | c :: rest => (splitSchemeSep rest).map (fun p => (c :: p.1, p.2))

def afterLastAt (cs : List Char) : List Char :=
  (cs.reverse.takeWhile (fun c => c != '@')).reverse

def parseURL (s : String) : Option URLParts :=
  match splitSchemeSep s.data with
  | none => none
  | some (scheme, rest) =>
    if scheme ≠ [] ∧ scheme.all Char.isAlpha then
      let authority := rest.takeWhile (fun c => !(c == '/' || c == '?' || c == '#'))
      let after := rest.drop authority.length
      let hostname := (afterLastAt authority).takeWhile (fun c => c != ':')
      if hostname = [] then none
      else
        let pathname :=
          match after with
          | '/' :: _ => after.takeWhile (fun c => !(c == '?' || c == '#'))
          | _ => ['/']
        some { hostname := String.mk hostname, pathname := String.mk pathname }
    else none

def getSourceLabel (source : String) : String :=
  match parseURL source with
  | none => source
  | some parsed => parsed.hostname ++ parsed.pathname

theorem getSourceLabel_contract :
    (∀ (s : String) (u : URLParts), parseURL s = some u →
      getSourceLabel s = u.hostname ++ u.pathname) ∧
    (∀ s : String, parseURL s = none → getSourceLabel s = s) := by
  constructor
  · intro s u h
    simp [getSourceLabel, h]
  · intro s h
    simp [getSourceLabel, h]

theorem getSourceLabel_contract_witness :
    getSourceLabel "https://example.com/a/b" = "example.com/a/b" ∧
    getSourceLabel "not a url" = "not a url" :=
  ⟨getSourceLabel_contract.1 "https://example.com/a/b"
      { hostname := "example.com", pathname := "/a/b" } (by decide),
   getSourceLabel_contract.2 "not a url" (by decide)⟩

lemma lookup_mem {α β : Type} [BEq α] [LawfulBEq α] :
    ∀ {l : List (α × β)} {k : α} {v : β}, List.lookup k l = some v → (k, v) ∈ l
  | [], k, v, h => by simp [List.lookup] at h
  | (a, b) :: l, k, v, h => by
    rw [List.lookup] at h
    by_cases hk : k == a
    · rw [hk] at h
      simp only [Option.some.injEq] at h
      subst h
      have : k = a := eq_of_beq hk
      subst this
      exact List.mem_cons_self _ _
    · rw [Bool.not_eq_true] at hk
      rw [hk] at h
      exact List.mem_cons_of_mem _ (lookup_mem h)

def resolveRegionAbbr (fipsTable nameTable : List (String × String))
    (featureId : Nat) (featureName : String) : Option String :=
  let fips := String.mk (padStartZeros (Nat.repr featureId).data 2)
  jsOrOpt (List.lookup fips fipsTable) (List.lookup featureName nameTable)

theorem resolveRegion_code_priority (fipsTable nameTable : List (String × String))
    (hf : ∀ p ∈ fipsTable, p.2 ≠ "") (featureId : Nat) (featureName : String) :
    (∀ a, List.lookup (String.mk (padStartZeros (Nat.repr featureId).data 2)) fipsTable
        = some a →
      resolveRegionAbbr fipsTable nameTable featureId featureName = some a) ∧
    (List.lookup (String.mk (padStartZeros (Nat.repr featureId).data 2)) fipsTable = none →
      resolveRegionAbbr fipsTable nameTable featureId featureName =
        List.lookup featureName nameTable) := by
  constructor
  · intro a h
    have ha : a ≠ "" := hf _ (lookup_mem h)
    simp [resolveRegionAbbr, h, jsOrOpt, ha]
  · intro h
    simp [resolveRegionAbbr, h, jsOrOpt]

theorem resolveRegion_code_priority_witness :
    resolveRegionAbbr [("06", "CA")] [("California", "ZZ")] 6 "California" = some "CA" ∧
    resolveRegionAbbr [("06", "CA")] [("Texas", "TX")] 48 "Texas" = some "TX" :=
  ⟨(resolveRegion_code_priority [("06", "CA")] [("California", "ZZ")]
      (by decide) 6 "California").1 "CA" (by decide),
   (resolveRegion_code_priority [("06", "CA")] [("Texas", "TX")]
      (by decide) 48 "Texas").2 (by decide)⟩

/-!
The selection-state holder. `selectedState` returns the dataset record for
the selected abbreviation when present (objects are always truthy), else a
synthesized default record. `allLastUpdated` is
`Object.values(statesData).map(item => item.lastUpdated).filter(Boolean).sort()`
(JS default sort on strings is lexicographic; modelled with `insertionSort`
on `String` order) and `latestDataDate` indexes its last element, falling
back to the fixed date `"2026-02-11"`. `ALL_STATES` (the state-name table)
and the regulation dataset are data files outside the sources here, so both
are parameters.
-/

structure StateRecord where
  name : String
  status : Option String
  summary : String
  keyLaws : List String
  recentDevelopments : String
  sources : List String
  lastUpdated : Option String
deriving DecidableEq

def allLastUpdated (statesData : List (String × StateRecord)) : List String :=
  List.insertionSort (· ≤ ·)
    (((statesData.map (fun p => p.2.lastUpdated)).filterMap (fun x => x)).filter
      (fun s => decide (s ≠ "")))

def latestDataDate (statesData : List (String × StateRecord)) : String :=
  jsOrStr (allLastUpdated statesData).getLast? "2026-02-11"

def selectedStateRecord (statesData : List (String × StateRecord))
    (nameTable : List (String × String)) (abbr : String) : StateRecord :=
  match List.lookup abbr statesData with
  | some r => r
  | none =>
    let name := jsOrStr (List.lookup abbr nameTable) "Unknown"
    { name := name
      status := some "federal_default"
      summary := name ++
        " does not currently have a clearly identified state-specific stablecoin framework in this dataset. " ++
        "As a baseline, activity may still be governed by federal stablecoin rules plus general money transmission, banking, and consumer protection law."
      keyLaws := ["No dedicated state-level stablecoin framework identified in this dataset."]
      recentDevelopments :=
        "No major state-specific stablecoin development is currently listed in this starter dataset."
      sources := []
      lastUpdated := some (latestDataDate statesData) }

def datesPresent (statesData : List (String × StateRecord)) : List String :=
  statesData.filterMap (fun p => p.2.lastUpdated)

lemma sorted_getLast_ge {l : List String} {m : String}
    (hs : l.Sorted (· ≤ ·)) (hm : l.getLast? = some m) : ∀ x ∈ l, x ≤ m := by
  induction l with
  | nil => simp at hm
  | cons a t ih =>
    match t with
    | [] =>
      simp only [List.getLast?_singleton, Option.some.injEq] at hm
      subst hm
      intro x hx
      simp at hx
      subst hx
      exact le_refl x
    | b :: t2 =>
      rw [List.getLast?_cons_cons] at hm
      intro x hx
      rcases List.mem_cons.mp hx with rfl | hx2
      · have hmem : m ∈ b :: t2 := List.mem_of_getLast?_eq_some hm
        exact List.rel_of_sorted_cons hs m hmem
      · exact ih hs.of_cons hm x hx2

lemma max_of_sort_nonempty (l : List String) (h : l ≠ []) :
    ∃ m, List.getLast? (List.insertionSort (· ≤ ·) l) = some m ∧ m ∈ l ∧ ∀ x ∈ l, x ≤ m := by
  have hp : List.Perm (List.insertionSort (· ≤ ·) l) l := List.perm_insertionSort _ l
  have hne : List.insertionSort (· ≤ ·) l ≠ [] := by
    intro h0
    exact h (List.eq_nil_of_length_eq_zero (by
      rw [← hp.length_eq, h0, List.length_nil]))
  rcases hl : List.getLast? (List.insertionSort (· ≤ ·) l) with _ | m
  · rw [List.getLast?_eq_none_iff] at hl
    exact absurd hl hne
  · refine ⟨m, rfl, ?_, ?_⟩
    · exact hp.mem_iff.mp (List.mem_of_getLast?_eq_some hl)
    · intro x hx
      exact sorted_getLast_ge (List.sorted_insertionSort _ l) hl x (hp.mem_iff.mpr hx)

lemma filter_dates_eq {statesData : List (String × StateRecord)}
    (hdates : ∀ p ∈ statesData, p.2.lastUpdated ≠ some "") :
    ((statesData.map (fun p => p.2.lastUpdated)).filterMap (fun x => x)).filter
        (fun s => decide (s ≠ "")) = datesPresent statesData := by
  have hmm : (statesData.map (fun p => p.2.lastUpdated)).filterMap (fun x => x) =
      datesPresent statesData := by
    rw [List.filterMap_map]
    rfl
  rw [hmm]
  apply List.filter_eq_self.mpr
  intro a ha
  rw [datesPresent, List.mem_filterMap] at ha
  obtain ⟨p, hp, hpa⟩ := ha
  have := hdates p hp
  simp only [decide_eq_true_eq]
  intro h0
  rw [h0] at hpa
  exact this hpa

theorem selectedState_synthesized (statesData : List (String × StateRecord))
    (nameTable : List (String × String)) (abbr : String)
    (habs : List.lookup abbr statesData = none)
    (hnames : ∀ p ∈ nameTable, p.2 ≠ "")
    (hdates : ∀ p ∈ statesData, p.2.lastUpdated ≠ some "") :
    (∀ n, List.lookup abbr nameTable = some n →
      (selectedStateRecord statesData nameTable abbr).name = n) ∧
    (List.lookup abbr nameTable = none →
      (selectedStateRecord statesData nameTable abbr).name = "Unknown") ∧
    (selectedStateRecord statesData nameTable abbr).status = some "federal_default" ∧
    (selectedStateRecord statesData nameTable abbr).sources = [] ∧
    (selectedStateRecord statesData nameTable abbr).summary ≠ "" ∧
    (∃ rest, (selectedStateRecord statesData nameTable abbr).summary =
      (selectedStateRecord statesData nameTable abbr).name ++ rest) ∧
    (selectedStateRecord statesData nameTable abbr).keyLaws ≠ [] ∧
    (selectedStateRecord statesData nameTable abbr).recentDevelopments ≠ "" ∧
    (datesPresent statesData = [] →
      (selectedStateRecord statesData nameTable abbr).lastUpdated = some "2026-02-11") ∧
    (datesPresent statesData ≠ [] →
      ∃ m, (selectedStateRecord statesData nameTable abbr).lastUpdated = some m ∧
        m ∈ datesPresent statesData ∧ ∀ x ∈ datesPresent statesData, x ≤ m) := by
  have hrec : selectedStateRecord statesData nameTable abbr =
      { name := jsOrStr (List.lookup abbr nameTable) "Unknown"
        status := some "federal_default"
        summary := jsOrStr (List.lookup abbr nameTable) "Unknown" ++
          " does not currently have a clearly identified state-specific stablecoin framework in this dataset. " ++
          "As a baseline, activity may still be governed by federal stablecoin rules plus general money transmission, banking, and consumer protection law."
        keyLaws := ["No dedicated state-level stablecoin framework identified in this dataset."]
        recentDevelopments :=
          "No major state-specific stablecoin development is currently listed in this starter dataset."
        sources := []
        lastUpdated := some (latestDataDate statesData) } := by
    rw [selectedStateRecord, habs]
  rw [hrec]
  refine ⟨?_, ?_, rfl, rfl, ?_, ?_, ?_, ?_, ?_, ?_⟩
  · intro n hn
    have hne : n ≠ "" := hnames _ (lookup_mem hn)
    simp [jsOrStr, hn, hne]
  · intro hn
    simp [jsOrStr, hn]
  · intro h0
    have h1 := congrArg String.data h0
    simp only [String.data_append] at h1
    have h2 := (List.append_eq_nil.mp h1).2
    exact absurd h2 (by decide)
  · exact ⟨_, String.append_assoc _ _ _⟩
  · show ["No dedicated state-level stablecoin framework identified in this dataset."] ≠
      ([] : List String)
    decide
  · show ("No major state-specific stablecoin development is currently listed in this starter dataset." : String) ≠ ""
    decide
  · intro hdp
    have h0 : ((statesData.map (fun p => p.2.lastUpdated)).filterMap (fun x => x)).filter
        (fun s => decide (s ≠ "")) = [] := by
      rw [filter_dates_eq hdates, hdp]
    simp only [latestDataDate, allLastUpdated, h0]
    rfl
  · intro hdp
    obtain ⟨m, hm, hmem, hbound⟩ := max_of_sort_nonempty (datesPresent statesData) hdp
    have hmne : m ≠ "" := by
      rw [datesPresent, List.mem_filterMap] at hmem
      obtain ⟨p, hp, hpa⟩ := hmem
      intro h0
      rw [h0] at hpa
      exact hdates p hp hpa
    refine ⟨m, ?_, hmem, hbound⟩
    simp only [latestDataDate, allLastUpdated, filter_dates_eq hdates, hm, jsOrStr]
    simp [hmne]

/-- Sample dataset for the witness: one `NY` record, selection of `CA`. -/
def sampleStates : List (String × StateRecord) :=
  [("NY",
    { name := "New York"
      status := some "clear_restrictive"
      summary := "BitLicense regime."
      keyLaws := ["23 NYCRR 200"]
      recentDevelopments := "None."
      sources := []
      lastUpdated := some "2026-01-05" })]

def sampleNames : List (String × String) := [("CA", "California")]

theorem selectedState_synthesized_witness :
    (selectedStateRecord sampleStates sampleNames "CA").name = "California" ∧
    (selectedStateRecord sampleStates sampleNames "CA").status = some "federal_default" ∧
    (selectedStateRecord sampleStates sampleNames "CA").sources = [] ∧
    (∃ m, (selectedStateRecord sampleStates sampleNames "CA").lastUpdated = some m ∧
      m ∈ datesPresent sampleStates ∧ ∀ x ∈ datesPresent sampleStates, x ≤ m) :=
  ⟨(selectedState_synthesized sampleStates sampleNames "CA"
      (by decide) (by decide) (by decide)).1 "California" (by decide),
   (selectedState_synthesized sampleStates sampleNames "CA"
      (by decide) (by decide) (by decide)).2.2.1,
   (selectedState_synthesized sampleStates sampleNames "CA"
      (by decide) (by decide) (by decide)).2.2.2.1,
   (selectedState_synthesized sampleStates sampleNames "CA"
      (by decide) (by decide) (by decide)).2.2.2.2.2.2.2.2.2 (by decide)⟩
